import Mathlib

/-!
# Verification of the Bayesian-calibration MCMC pipeline

Shallow embedding of the core of `baycal_elm-latest.ipynb`: the log-prior /
log-likelihood / log-posterior composition, the Gelman-Rubin convergence
diagnostic, the burn-in trimming, the convergence gate, the walker
initialization and the posterior-propagation sampling.  Real-valued numpy
computation is modelled over exact rationals (and over `ℝ` where a square
root is taken); Python exceptions are modelled with `Except`.
-/

namespace BayCal

/-- A log-probability value as used by the notebook: either `-np.inf`
(log of a zero probability) or a finite value. -/
inductive LogProb where
  | negInf : LogProb
  | fin : ℚ → LogProb
deriving DecidableEq, Repr

/-- Embedding of `lnprior`: `0.0` when every component of `theta` lies in
`[0, 1]` (`np.all(theta >= 0) and np.all(theta <= 1)`), `-np.inf` otherwise. -/
def lnprior (theta : List ℚ) : LogProb :=
  if (∀ x ∈ theta, 0 ≤ x) ∧ (∀ x ∈ theta, x ≤ 1) then .fin 0 else .negInf

/-- Embedding of `lnlike`: the Gaussian log-likelihood
`-0.5 * ((predicted_nrmse - desired_nrmse) / desired_std)**2`, where
`predicted_nrmse = gpr_model.predict([theta])[0]`.  The surrogate
`gpr_model.predict` and the ambient globals `desired_nrmse`, `desired_std`
are passed explicitly. -/
def lnlike (predict : List ℚ → ℚ) (desired_nrmse desired_std : ℚ)
    (theta : List ℚ) : ℚ :=
  -0.5 * ((predict theta - desired_nrmse) / desired_std) ^ 2

/-- The notebook's fixed value of `desired_nrmse`. -/
def desired_nrmse : ℚ := 0.4

/-- The notebook's fixed value of `desired_std`. -/
def desired_std : ℚ := 0.02

/-- Embedding of `lnprob`: compute `lp = lnprior(theta)`; if `lp` is not
finite return `-np.inf`, otherwise return `lp + lnlike(theta)`. -/
def lnprob (predict : List ℚ → ℚ) (dn ds : ℚ) (theta : List ℚ) : LogProb :=
  match lnprior theta with
  | .negInf => .negInf
  | .fin lp => .fin (lp + lnlike predict dn ds theta)

/-- `lnlike` paired with the number of surrogate-predictor invocations it
performs: the body calls `gpr_model.predict` exactly once. -/
def lnlikeCount (predict : List ℚ → ℚ) (dn ds : ℚ) (theta : List ℚ) :
    ℚ × ℕ :=
  (-0.5 * ((predict theta - dn) / ds) ^ 2, 1)

/-- `lnprob` paired with the number of surrogate-predictor invocations the
call performs, following the control flow of the source: the out-of-bounds
branch returns before `lnlike` is reached. -/
def lnprobCount (predict : List ℚ → ℚ) (dn ds : ℚ) (theta : List ℚ) :
    LogProb × ℕ :=
  match lnprior theta with
  | .negInf => (.negInf, 0)
  | .fin lp =>
      let r := lnlikeCount predict dn ds theta
      (.fin (lp + r.1), r.2)

/-- Embedding of `lnlike` against a predictor that may raise: Python
exception propagation is the `Except` bind.  `lnlike` has no handler, so a
raising `gpr_model.predict([theta])` aborts the whole call. -/
def lnlikeE {ε : Type} (predict : List ℚ → Except ε ℚ) (dn ds : ℚ)
    (theta : List ℚ) : Except ε ℚ := do
  let predicted ← predict theta
  pure (-0.5 * ((predicted - dn) / ds) ^ 2)

/-- Embedding of `lnprob` against a predictor that may raise: the prior is
checked first, and the in-bounds branch calls `lnlikeE` with no handler. -/
def lnprobE {ε : Type} (predict : List ℚ → Except ε ℚ) (dn ds : ℚ)
    (theta : List ℚ) : Except ε LogProb :=
  match lnprior theta with
  | .negInf => .ok .negInf
  | .fin lp => do
      let ll ← lnlikeE predict dn ds theta
      pure (.fin (lp + ll))

section GelmanRubin

variable {m n d : ℕ}

/-- Embedding of `chain_means = np.mean(chains, axis=1)`: the mean over
steps of each chain, per dimension.  `chains` has shape
`(n_chains, n_steps, n_parameters)`. -/
def chain_means (chains : Fin m → Fin n → Fin d → ℚ) (c : Fin m)
    (p : Fin d) : ℚ :=
  (∑ s, chains c s p) / n

/-- Embedding of `overall_mean = np.mean(chains, axis=(0, 1))`: the mean
over all chains and steps, per dimension. -/
def overall_mean (chains : Fin m → Fin n → Fin d → ℚ) (p : Fin d) : ℚ :=
  (∑ c, ∑ s, chains c s p) / ((m : ℚ) * n)

/-- Embedding of
`B_over_n = np.sum((chain_means - overall_mean)**2, axis=0) / (n_chains - 1)`. -/
def B_over_n (chains : Fin m → Fin n → Fin d → ℚ) (p : Fin d) : ℚ :=
  (∑ c, (chain_means chains c p - overall_mean chains p) ^ 2) / ((m : ℚ) - 1)

/-- Embedding of `np.var(chains, axis=1, ddof=1)`: the per-chain sample
variance over steps with denominator `n_steps - 1`. -/
def var_ddof1 (chains : Fin m → Fin n → Fin d → ℚ) (c : Fin m)
    (p : Fin d) : ℚ :=
  (∑ s, (chains c s p - chain_means chains c p) ^ 2) / ((n : ℚ) - 1)

/-- Embedding of `W = np.mean(np.var(chains, axis=1, ddof=1), axis=0)`. -/
def W (chains : Fin m → Fin n → Fin d → ℚ) (p : Fin d) : ℚ :=
  (∑ c, var_ddof1 chains c p) / m

/-- Embedding of `var_hat_plus = ((n_steps - 1) / n_steps) * W + B_over_n`. -/
def var_hat_plus (chains : Fin m → Fin n → Fin d → ℚ) (p : Fin d) : ℚ :=
  (((n : ℚ) - 1) / n) * W chains p + B_over_n chains p

/-- Embedding of `gelman_rubin`, returning
`R_hat = np.sqrt(var_hat_plus / W)` per dimension.  The division is exact
rational division with the `x / 0 = 0` convention standing in for numpy's
silent NaN/inf. -/
noncomputable def gelman_rubin (chains : Fin m → Fin n → Fin d → ℚ)
    (p : Fin d) : ℝ :=
  Real.sqrt ((var_hat_plus chains p / W chains p : ℚ))

/-- The spec's overall mean, stated as the mean over chains of the
chain means (the source instead averages over all samples at once). -/
def overall_mean_spec (chains : Fin m → Fin n → Fin d → ℚ) (p : Fin d) : ℚ :=
  (∑ c, chain_means chains c p) / m

/-- The spec's between-chain variance, built on `overall_mean_spec`. -/
def B_over_n_spec (chains : Fin m → Fin n → Fin d → ℚ) (p : Fin d) : ℚ :=
  (∑ c, (chain_means chains c p - overall_mean_spec chains p) ^ 2) /
    ((m : ℚ) - 1)

/-- The spec's R-hat formula
`sqrt((((n_steps - 1)/n_steps) * W + B/n) / W)`, with `B/n` built from
`overall_mean_spec`. -/
noncomputable def rhat_spec (chains : Fin m → Fin n → Fin d → ℚ)
    (p : Fin d) : ℝ :=
  Real.sqrt ((((((n : ℚ) - 1) / n) * W chains p + B_over_n_spec chains p) /
    W chains p : ℚ))

end GelmanRubin

/-- The payload-free outcome of the notebook's bare `assert False`: an
AssertionError carrying no information about which dimensions failed. -/
inductive AssertFailure where
  | assertFalse : AssertFailure
deriving DecidableEq, Repr

/-- Embedding of the convergence-gate loop over the computed `R_hat`
values: for each value in turn, if `R_hat > 1.1` the cell executes
`assert False` (modelled as an `AssertFailure` raise), otherwise the loop
continues; falling off the end reaches the summarization cells. -/
noncomputable def rhatCheck : List ℝ → Except AssertFailure Unit
  | [] => .ok ()
  | r :: rest => if 1.1 < r then .error .assertFalse else rhatCheck rest

/-- Embedding of `burnin = int(nsteps // 2)`. -/
def burnin (nsteps : ℕ) : ℕ := nsteps / 2

/-- Embedding of `chains_burned = sampler.chain[:, burnin:, :]`: the chain
tensor is `(nwalkers, nsteps, ndim)`, sliced along axis 1. -/
def chains_burned (chain : List (List (List ℚ))) (nsteps : ℕ) :
    List (List (List ℚ)) :=
  chain.map (fun row => row.drop (burnin nsteps))

/-- Embedding of `np.random.rand(ndim)` against an explicit pseudo-random
source `next`: draw `ndim` consecutive variates, threading the state. -/
def randVec {σ : Type} (next : σ → ℚ × σ) : ℕ → σ → List ℚ × σ
  | 0, s => ([], s)
  | k + 1, s =>
      let r := next s
      let rest := randVec next k r.2
      (r.1 :: rest.1, rest.2)

/-- Embedding of `pos = [np.random.rand(ndim) for i in range(nwalkers)]`:
the walker starting positions, drawn from the ambient global random state,
which is threaded through and returned (the notebook sets no seed, so the
state at entry is whatever the session left behind). -/
def initPositions {σ : Type} (next : σ → ℚ × σ) (ndim : ℕ) :
    ℕ → σ → List (List ℚ) × σ
  | 0, s => ([], s)
  | k + 1, s =>
      let v := randVec next ndim s
      let rest := initPositions next ndim k v.2
      (v.1 :: rest.1, rest.2)

/-- A concrete stand-in for numpy's global generator: state `s` yields `0`
on the very first draw of the session and `1` afterwards, so two
back-to-back unseeded runs observe different streams. -/
def stepRand : ℕ → ℚ × ℕ := fun s => (if s = 0 then 0 else 1, s + 1)

/-- Embedding of `selected_samples = samples[np.random.choice(len(samples),
n_samples, replace=False)]`: fancy indexing of the flattened pool by the
drawn index list. -/
def selected_samples (samples : List (List ℚ)) (idx : List ℕ) :
    List (List ℚ) :=
  idx.map (fun i => samples.getD i [])

/-- Embedding of the propagation loop
`for sample in selected_samples: nrmse = gpr_model.predict(...);
nrmse_values.append(nrmse)`, paired with the number of predictor
invocations the loop performs. -/
def nrmse_values (predict : List ℚ → ℚ) (sel : List (List ℚ)) :
    List ℚ × ℕ :=
  sel.foldl (fun acc sample => (acc.1 ++ [predict sample], acc.2 + 1)) ([], 0)

/-- Embedding of `np.mean`. -/
def meanQ (xs : List ℚ) : ℚ := xs.sum / (xs.length : ℚ)

/-- Embedding of `np.percentile(xs, q)` with the default linear
interpolation: sort, locate `h = (len - 1) * q / 100`, and interpolate
between the neighbouring order statistics. -/
def percentileQ (xs : List ℚ) (q : ℚ) : ℚ :=
  let s := List.insertionSort (· ≤ ·) xs
  let h := ((s.length : ℚ) - 1) * q / 100
  let lo := ⌊h⌋₊
  s.getD lo 0 + (h - (lo : ℚ)) * (s.getD (lo + 1) (s.getD lo 0) - s.getD lo 0)

/-- Embedding of the summary printed at the end of the propagation cell:
`np.mean(nrmse_values)`, `np.percentile(nrmse_values, 2.5)` and
`np.percentile(nrmse_values, 97.5)`. -/
def propagationSummary (predict : List ℚ → ℚ) (samples : List (List ℚ))
    (idx : List ℕ) : ℚ × ℚ × ℚ :=
  let vals := (nrmse_values predict (selected_samples samples idx)).1
  (meanQ vals, percentileQ vals (5 / 2), percentileQ vals (195 / 2))

/-- C1: for every `theta` with every component inside `[0, 1]`,
`lnprob theta` is exactly `-0.5 * ((predict theta - desired_nrmse) /
desired_std) ^ 2`. -/
theorem lnprob_in_bounds (predict : List ℚ → ℚ) (dn ds : ℚ) (theta : List ℚ)
    (h : ∀ x ∈ theta, 0 ≤ x ∧ x ≤ 1) :
    lnprob predict dn ds theta =
      .fin (-0.5 * ((predict theta - dn) / ds) ^ 2) := by
  unfold lnprob lnprior
  rw [if_pos ⟨fun x hx => (h x hx).1, fun x hx => (h x hx).2⟩]
  simp [lnlike]

/-- Witness for C1 at `theta = [0]`, a zero predictor and the notebook's
target configuration. -/
theorem lnprob_in_bounds_witness :
    (∀ x ∈ [(0:ℚ)], 0 ≤ x ∧ x ≤ 1) ∧
    lnprob (fun _ => 0) desired_nrmse desired_std [(0:ℚ)] =
      .fin (-0.5 * ((0 - desired_nrmse) / desired_std) ^ 2) :=
  ⟨by decide, lnprob_in_bounds (fun _ => 0) _ _ _ (by decide)⟩

/-- C2: for every `theta` with a component strictly below `0` or strictly
above `1`, `lnprob` returns `-np.inf` and the surrogate predictor is invoked
zero times; and every call invokes the predictor at most once. -/
theorem lnprobCount_out_of_bounds :
    (∀ (predict : List ℚ → ℚ) (dn ds : ℚ) (theta : List ℚ),
      (∃ x ∈ theta, x < 0 ∨ 1 < x) →
      lnprobCount predict dn ds theta = (.negInf, 0)) ∧
    (∀ (predict : List ℚ → ℚ) (dn ds : ℚ) (theta : List ℚ),
      (lnprobCount predict dn ds theta).2 ≤ 1) := by
  constructor
  · intro predict dn ds theta h
    obtain ⟨x, hx, hlt⟩ := h
    unfold lnprobCount lnprior
    rw [if_neg]
    rintro ⟨h0, h1⟩
    rcases hlt with hlt | hlt
    · exact absurd (h0 x hx) (not_le.mpr hlt)
    · exact absurd (h1 x hx) (not_le.mpr hlt)
  · intro predict dn ds theta
    cases h : lnprior theta <;> simp [lnprobCount, h, lnlikeCount]

/-- Witness for C2 at the out-of-bounds `theta = [2]`. -/
theorem lnprobCount_out_of_bounds_witness :
    (∃ x ∈ [(2:ℚ)], x < 0 ∨ 1 < x) ∧
    lnprobCount (fun _ => 0) desired_nrmse desired_std [(2:ℚ)] =
      (.negInf, 0) ∧
    (lnprobCount (fun _ => 0) desired_nrmse desired_std [(2:ℚ)]).2 ≤ 1 :=
  ⟨by decide,
   lnprobCount_out_of_bounds.1 (fun _ => 0) _ _ _ (by decide),
   lnprobCount_out_of_bounds.2 (fun _ => 0) _ _ _⟩

/-- Counterexample for C6: for the in-bounds candidate `[0]` and a
predictor that raises, `lnprob` propagates the exception out of the call
(the Python code has no handler around `gpr_model.predict`), instead of
returning the `-np.inf` the claim requires. -/
theorem lnprobE_raises_not_negInf :
    lnprobE (fun _ => Except.error ()) desired_nrmse desired_std [(0:ℚ)] =
      Except.error () ∧
    (Except.error () : Except Unit LogProb) ≠ Except.ok LogProb.negInf := by
  constructor
  · have h : lnprior [(0:ℚ)] = .fin 0 := by decide
    simp [lnprobE, h, lnlikeE, Bind.bind, Except.bind]
  · simp

/-- C6 amended: for every in-bounds candidate, an exception raised by the
surrogate predictor propagates uncaught out of `lnprob` (fatal to the
sampler); it is not converted into a `-np.inf` posterior. -/
theorem lnprobE_raises_propagates {ε : Type} (e : ε) (dn ds : ℚ)
    (theta : List ℚ) (h : ∀ x ∈ theta, 0 ≤ x ∧ x ≤ 1) :
    lnprobE (fun _ => Except.error e) dn ds theta = Except.error e := by
  unfold lnprobE lnprior
  rw [if_pos ⟨fun x hx => (h x hx).1, fun x hx => (h x hx).2⟩]
  simp [lnlikeE, Bind.bind, Except.bind]

/-- Witness for the amended C6 at `theta = [0]`. -/
theorem lnprobE_raises_propagates_witness :
    (∀ x ∈ [(0:ℚ)], 0 ≤ x ∧ x ≤ 1) ∧
    lnprobE (fun _ => Except.error ()) desired_nrmse desired_std [(0:ℚ)] =
      Except.error () :=
  ⟨by decide, lnprobE_raises_propagates () _ _ _ (by decide)⟩

/-- The source's overall mean (average over all samples at once) agrees
with the spec's (average over chains of the chain means), because every
chain contributes the same number of steps. -/
theorem overall_mean_eq_spec {m n d : ℕ} (chains : Fin m → Fin n → Fin d → ℚ)
    (p : Fin d) : overall_mean chains p = overall_mean_spec chains p := by
  unfold overall_mean overall_mean_spec chain_means
  rw [← Finset.sum_div, div_div, mul_comm (n : ℚ) (m : ℚ)]

/-- C3: for every chain tensor with `n_chains ≥ 2` and `n_steps ≥ 2`,
`gelman_rubin` returns, per dimension, exactly the spec's
`sqrt((((n_steps - 1)/n_steps) * W + B/n) / W)` with `chain_means`,
`overall_mean`, `B/n` and `W` as the spec describes them. -/
theorem gelman_rubin_matches_spec {m n d : ℕ} (hm : 2 ≤ m) (hn : 2 ≤ n)
    (chains : Fin m → Fin n → Fin d → ℚ) (p : Fin d) :
    gelman_rubin chains p = rhat_spec chains p := by
  unfold gelman_rubin rhat_spec var_hat_plus B_over_n B_over_n_spec
  rw [overall_mean_eq_spec]

/-- Witness for C3 on a concrete `2 × 2 × 1` chain tensor. -/
theorem gelman_rubin_matches_spec_witness :
    2 ≤ 2 ∧
    gelman_rubin (fun (c : Fin 2) (s : Fin 2) (_ : Fin 1) =>
        ((c : ℕ) : ℚ) + ((s : ℕ) : ℚ)) 0 =
      rhat_spec (fun (c : Fin 2) (s : Fin 2) (_ : Fin 1) =>
        ((c : ℕ) : ℚ) + ((s : ℕ) : ℚ)) 0 :=
  ⟨by decide, gelman_rubin_matches_spec (by decide) (by decide) _ 0⟩

/-- C10: for every chain tensor with `n_chains ≥ 2`, `n_steps ≥ 2` and a
dimension with strictly positive within-chain variance `W`, the returned
`R_hat` is at least `sqrt((n_steps - 1)/n_steps)`, since
`var_hat_plus = ((n_steps - 1)/n_steps) * W + B/n` with `B/n ≥ 0`. -/
theorem gelman_rubin_lower_bound {m n d : ℕ}
    (chains : Fin m → Fin n → Fin d → ℚ) (hm : 2 ≤ m) (hn : 2 ≤ n)
    (p : Fin d) (hW : 0 < W chains p) :
    Real.sqrt ((((n : ℚ) - 1) / (n : ℚ) : ℚ) : ℝ) ≤ gelman_rubin chains p := by
  have hB : 0 ≤ B_over_n chains p := by
    unfold B_over_n
    apply div_nonneg (Finset.sum_nonneg fun _ _ => sq_nonneg _)
    have h2 : (2 : ℚ) ≤ (m : ℚ) := by exact_mod_cast hm
    linarith
  have key : ((n : ℚ) - 1) / (n : ℚ) ≤ var_hat_plus chains p / W chains p := by
    unfold var_hat_plus
    rw [add_div, mul_div_assoc, div_self hW.ne', mul_one]
    exact le_add_of_nonneg_right (div_nonneg hB hW.le)
  unfold gelman_rubin
  apply Real.sqrt_le_sqrt
  exact_mod_cast key

/-- Witness for C10 on a concrete `2 × 2 × 1` chain with `W = 1/2 > 0`. -/
theorem gelman_rubin_lower_bound_witness :
    0 < W (fun (_ : Fin 2) (s : Fin 2) (_ : Fin 1) => ((s : ℕ) : ℚ)) 0 ∧
    Real.sqrt (((((2 : ℕ) : ℚ) - 1) / ((2 : ℕ) : ℚ) : ℚ) : ℝ) ≤
      gelman_rubin (fun (_ : Fin 2) (s : Fin 2) (_ : Fin 1) =>
        ((s : ℕ) : ℚ)) 0 := by
  have hW : 0 < W (fun (_ : Fin 2) (s : Fin 2) (_ : Fin 1) =>
      ((s : ℕ) : ℚ)) 0 := by
    norm_num [W, var_ddof1, chain_means, Fin.sum_univ_two]
  exact ⟨hW, gelman_rubin_lower_bound _ (by decide) (by decide) 0 hW⟩

/-- Counterexample for C4: on two identical constant-valued chains (a
frozen run with `W = 0`) the Gelman-Rubin computation does not signal any
error — it silently divides by zero (`var_hat_plus / W` with both zero;
numpy's NaN, here the exact `0/0 = 0` convention), returns a plain value,
and the downstream `R_hat > 1.1` gate lets the run proceed. -/
theorem gelman_rubin_frozen_chain_silent :
    gelman_rubin (fun (_ : Fin 2) (_ : Fin 2) (_ : Fin 1) => (0 : ℚ)) 0 = 0 ∧
    rhatCheck
      [gelman_rubin (fun (_ : Fin 2) (_ : Fin 2) (_ : Fin 1) => (0 : ℚ)) 0] =
        .ok () := by
  have h : gelman_rubin (fun (_ : Fin 2) (_ : Fin 2) (_ : Fin 1) =>
      (0 : ℚ)) 0 = 0 := by
    unfold gelman_rubin var_hat_plus W var_ddof1 B_over_n overall_mean
      chain_means
    norm_num [Fin.sum_univ_two]
  refine ⟨h, ?_⟩
  rw [h]
  simp only [rhatCheck]
  rw [if_neg (by norm_num : ¬ (1.1 : ℝ) < 0)]

/-- C4 amended: for every chain tensor made of `n_chains ≥ 2` identical
constant-valued chains (`n_steps ≥ 2`), the code performs the division
regardless of `W = 0`: `gelman_rubin` returns a plain value (`0` under the
exact `x / 0 = 0` convention that stands in for numpy's silent NaN) and
the downstream `R_hat > 1.1` check does not fire, so no error is signalled
and the run is not flagged. -/
theorem gelman_rubin_const_no_error (m n d : ℕ) (hm : 2 ≤ m) (hn : 2 ≤ n)
    (c : ℚ) (p : Fin d) :
    gelman_rubin (fun (_ : Fin m) (_ : Fin n) (_ : Fin d) => c) p = 0 ∧
    rhatCheck
      [gelman_rubin (fun (_ : Fin m) (_ : Fin n) (_ : Fin d) => c) p] =
        .ok () := by
  have hn0 : (n : ℚ) ≠ 0 := Nat.cast_ne_zero.mpr (by omega)
  have hm0 : (m : ℚ) ≠ 0 := Nat.cast_ne_zero.mpr (by omega)
  have hcm : ∀ cc : Fin m,
      chain_means (fun (_ : Fin m) (_ : Fin n) (_ : Fin d) => c) cc p = c := by
    intro cc
    unfold chain_means
    rw [Finset.sum_const, Finset.card_univ, Fintype.card_fin, nsmul_eq_mul,
      mul_div_cancel_left₀ _ hn0]
  have hom : overall_mean (fun (_ : Fin m) (_ : Fin n) (_ : Fin d) => c) p
      = c := by
    unfold overall_mean
    simp only [Finset.sum_const, Finset.card_univ, Fintype.card_fin,
      nsmul_eq_mul]
    rw [← mul_assoc, mul_div_cancel_left₀ _ (mul_ne_zero hm0 hn0)]
  have hB : B_over_n (fun (_ : Fin m) (_ : Fin n) (_ : Fin d) => c) p
      = 0 := by
    unfold B_over_n
    rw [Finset.sum_eq_zero fun cc _ => by rw [hcm, hom]; ring]
    exact zero_div _
  have hvar : ∀ cc : Fin m,
      var_ddof1 (fun (_ : Fin m) (_ : Fin n) (_ : Fin d) => c) cc p = 0 := by
    intro cc
    unfold var_ddof1
    rw [Finset.sum_eq_zero fun s _ => by rw [hcm]; ring]
    exact zero_div _
  have hW : W (fun (_ : Fin m) (_ : Fin n) (_ : Fin d) => c) p = 0 := by
    unfold W
    rw [Finset.sum_eq_zero fun cc _ => hvar cc]
    exact zero_div _
  have hgr : gelman_rubin (fun (_ : Fin m) (_ : Fin n) (_ : Fin d) => c) p
      = 0 := by
    unfold gelman_rubin var_hat_plus
    rw [hW, hB]
    norm_num
  refine ⟨hgr, ?_⟩
  rw [hgr]
  simp only [rhatCheck]
  rw [if_neg (by norm_num : ¬ (1.1 : ℝ) < 0)]

/-- Witness for the amended C4 at `m = n = 2`, `d = 1`, constant value `7`. -/
theorem gelman_rubin_const_no_error_witness :
    2 ≤ 2 ∧
    (gelman_rubin (fun (_ : Fin 2) (_ : Fin 2) (_ : Fin 1) => (7 : ℚ)) 0 = 0 ∧
     rhatCheck
       [gelman_rubin (fun (_ : Fin 2) (_ : Fin 2) (_ : Fin 1) => (7 : ℚ)) 0] =
         .ok ()) :=
  ⟨by decide, gelman_rubin_const_no_error 2 2 1 (by decide) (by decide) 7 0⟩

/-- Counterexample for C5: when a dimension's `R_hat` exceeds `1.1`, the
gate does not return a structured non-convergence report to the caller — it
executes a bare `assert False`, i.e. the run dies with a payload-free
`AssertionError` (a crash). -/
theorem rhatCheck_crashes :
    rhatCheck [(1.2 : ℝ)] = .error .assertFalse := by
  simp only [rhatCheck]
  rw [if_pos (by norm_num : (1.1 : ℝ) < 1.2)]

/-- C5 amended: summarization is reached exactly when every `R_hat` is at
most `1.1`; whenever some `R_hat` exceeds `1.1`, the pipeline halts before
summarization by raising a payload-free assertion failure (a crash), not by
returning a report of the offending dimensions. -/
theorem rhatCheck_gate (rs : List ℝ) :
    (rhatCheck rs = .ok () ↔ ∀ r ∈ rs, r ≤ 1.1) ∧
    (rhatCheck rs = .error .assertFalse ↔ ∃ r ∈ rs, 1.1 < r) := by
  induction rs with
  | nil =>
      constructor
      · simp [rhatCheck]
      · simp [rhatCheck]
  | cons r rest ih =>
      rcases lt_or_le (1.1 : ℝ) r with h | h
      · simp only [rhatCheck, if_pos h]
        constructor
        · constructor
          · intro hc
            exact Except.noConfusion hc
          · intro hall
            exact absurd (hall r (List.mem_cons_self r rest)) (not_le.mpr h)
        · constructor
          · intro _
            exact ⟨r, List.mem_cons_self r rest, h⟩
          · intro _
            trivial
      · simp only [rhatCheck, if_neg (not_lt.mpr h)]
        constructor
        · rw [ih.1]
          constructor
          · intro hall x hx
            rcases List.mem_cons.mp hx with rfl | hx
            · exact h
            · exact hall x hx
          · intro hall x hx
            exact hall x (List.mem_cons_of_mem r hx)
        · rw [ih.2]
          constructor
          · rintro ⟨x, hx, hgt⟩
            exact ⟨x, List.mem_cons_of_mem r hx, hgt⟩
          · rintro ⟨x, hx, hgt⟩
            rcases List.mem_cons.mp hx with rfl | hx
            · exact absurd hgt (not_lt.mpr h)
            · exact ⟨x, hx, hgt⟩

/-- C7: for every positive `nsteps` and chain tensor whose step axis has
length `nsteps`, the burn-in trim discards exactly
`floor(nsteps * burn_in_fraction)` leading steps (with the notebook's
default fraction `1/2`, `burnin = nsteps // 2`), leaving each walker the
final `nsteps - burnin` snapshots in their original order. -/
theorem chains_burned_trims (nsteps : ℕ) (hpos : 0 < nsteps)
    (chain : List (List (List ℚ)))
    (hlen : ∀ row ∈ chain, row.length = nsteps) :
    burnin nsteps = Nat.floor ((nsteps : ℚ) * (1 / 2)) ∧
    chains_burned chain nsteps = chain.map (fun row => row.drop (burnin nsteps)) ∧
    ∀ row ∈ chain,
      (row.drop (burnin nsteps)).length = nsteps - burnin nsteps ∧
      row = row.take (burnin nsteps) ++ row.drop (burnin nsteps) := by
  refine ⟨?_, rfl, ?_⟩
  · have hcast : (nsteps : ℚ) * (1 / 2) = (nsteps : ℚ) / ((2 : ℕ) : ℚ) := by
      push_cast
      ring
    rw [hcast, Nat.floor_div_nat, Nat.floor_natCast]
    rfl
  · intro row hrow
    refine ⟨?_, (List.take_append_drop _ _).symm⟩
    rw [List.length_drop, hlen row hrow]

/-- Witness for C7 at `nsteps = 4` on a single-walker chain. -/
theorem chains_burned_trims_witness :
    0 < 4 ∧
    (∀ row ∈ [[[(0 : ℚ)], [1], [2], [3]]], row.length = 4) ∧
    (burnin 4 = Nat.floor ((4 : ℚ) * (1 / 2)) ∧
     chains_burned [[[(0 : ℚ)], [1], [2], [3]]] 4 =
       [[[(0 : ℚ)], [1], [2], [3]]].map (fun row => row.drop (burnin 4)) ∧
     ∀ row ∈ [[[(0 : ℚ)], [1], [2], [3]]],
       (row.drop (burnin 4)).length = 4 - burnin 4 ∧
       row = row.take (burnin 4) ++ row.drop (burnin 4)) :=
  ⟨by decide, by decide, chains_burned_trims 4 (by decide) _ (by decide)⟩

set_option maxRecDepth 8000 in
/-- C8 failing input (the code never sets a seed): against a pseudo-random
source whose first session draw differs from later draws, the walker
initialization of a second back-to-back run — which continues from the
global state the first run left behind — produces different starting
positions than the first run, so the two runs' chains are not
bit-identical.  The notebook's configuration `ndim = 5`, `nwalkers = 50`
is used. -/
theorem initPositions_second_run_differs :
    (initPositions stepRand 5 50 0).1 ≠
      (initPositions stepRand 5 50 ((initPositions stepRand 5 50 0).2)).1 := by
  decide

/-- The propagation loop maps the predictor over the selected samples in
order, invoking it once per sample. -/
theorem nrmse_values_spec (predict : List ℚ → ℚ) (sel : List (List ℚ)) :
    nrmse_values predict sel = (sel.map predict, sel.length) := by
  have key : ∀ (l : List (List ℚ)) (acc : List ℚ × ℕ),
      l.foldl (fun acc sample => (acc.1 ++ [predict sample], acc.2 + 1)) acc =
        (acc.1 ++ l.map predict, acc.2 + l.length) := by
    intro l
    induction l with
    | nil =>
        intro acc
        simp
    | cons x xs ih =>
        intro acc
        rw [List.foldl_cons, ih]
        simp [List.append_assoc]
        omega
  unfold nrmse_values
  rw [key]
  simp

/-- C9: propagation sampling indexes the flattened pool at pairwise
distinct indices (`np.random.choice(..., replace=False)`, which requires
`n_samples` not to exceed the pool size), invokes the surrogate predictor
exactly once per drawn vector, and reports the mean and the 2.5th and
97.5th percentiles of the predicted values. -/
theorem propagation_without_replacement (predict : List ℚ → ℚ)
    (samples : List (List ℚ)) (idx : List ℕ) (n : ℕ)
    (hnodup : idx.Nodup) (hbound : ∀ i ∈ idx, i < samples.length)
    (hlen : idx.length = n) :
    List.Pairwise (fun a b => a ≠ b) idx ∧
    n ≤ samples.length ∧
    (nrmse_values predict (selected_samples samples idx)).2 = n ∧
    (nrmse_values predict (selected_samples samples idx)).1 =
      (selected_samples samples idx).map predict ∧
    propagationSummary predict samples idx =
      (meanQ ((selected_samples samples idx).map predict),
       percentileQ ((selected_samples samples idx).map predict) (5 / 2),
       percentileQ ((selected_samples samples idx).map predict) (195 / 2)) := by
  have hsub : idx.toFinset ⊆ Finset.range samples.length := by
    intro i hi
    exact Finset.mem_range.mpr (hbound i (List.mem_toFinset.mp hi))
  have hcard := Finset.card_le_card hsub
  rw [List.toFinset_card_of_nodup hnodup, Finset.card_range] at hcard
  refine ⟨hnodup, hlen ▸ hcard, ?_, ?_, ?_⟩
  · rw [nrmse_values_spec]
    simp [selected_samples, hlen]
  · rw [nrmse_values_spec]
  · unfold propagationSummary
    rw [nrmse_values_spec]

/-- Witness for C9 on a three-element pool with indices `[0, 2]`. -/
theorem propagation_without_replacement_witness :
    ([0, 2] : List ℕ).Nodup ∧
    (∀ i ∈ ([0, 2] : List ℕ), i < ([[(0 : ℚ)], [1], [2]] : List (List ℚ)).length) ∧
    ([0, 2] : List ℕ).length = 2 ∧
    (List.Pairwise (fun a b => a ≠ b) ([0, 2] : List ℕ) ∧
     2 ≤ ([[(0 : ℚ)], [1], [2]] : List (List ℚ)).length ∧
     (nrmse_values List.sum
       (selected_samples [[(0 : ℚ)], [1], [2]] [0, 2])).2 = 2 ∧
     (nrmse_values List.sum
       (selected_samples [[(0 : ℚ)], [1], [2]] [0, 2])).1 =
       (selected_samples [[(0 : ℚ)], [1], [2]] [0, 2]).map List.sum ∧
     propagationSummary List.sum [[(0 : ℚ)], [1], [2]] [0, 2] =
       (meanQ ((selected_samples [[(0 : ℚ)], [1], [2]] [0, 2]).map List.sum),
        percentileQ
          ((selected_samples [[(0 : ℚ)], [1], [2]] [0, 2]).map List.sum)
          (5 / 2),
        percentileQ
          ((selected_samples [[(0 : ℚ)], [1], [2]] [0, 2]).map List.sum)
          (195 / 2))) :=
  ⟨by decide, by decide, by decide,
   propagation_without_replacement List.sum _ _ 2 (by decide) (by decide)
     (by decide)⟩

end BayCal
